import Mathlib

/-!
# midi_listener: note table, note event state, staff drawing

A shallow embedding of `notes/notes.go` and of the note handling and staff
drawing code of `main.go`.

* `uint8` values are natural numbers; the conversion `uint8(x)` of a Go `int`
  is `x mod 256`.
* Go `int` values are integers; the Go operator `/` on `int` truncates toward
  zero and is `Int.tdiv`.
* The listener callback is a step function on the two fields of `Game` that the
  lock guards (`currentNotes`, `currentNote`); `started` is carried along since
  `drawStaff` reads it.
-/

set_option autoImplicit false

/-! ## Package `notes` -/

namespace notes

/-- Go struct `notes.Note` with fields `Name string`, `MIDINote uint8`,
`Position int`. -/
structure Note where
  Name : String
  MIDINote : Nat
  Position : Int
  deriving DecidableEq

def C3 : Note := ⟨"C3", 48, -8⟩
def D3 : Note := ⟨"D3", 50, -7⟩
def E3 : Note := ⟨"E3", 52, -6⟩
def F3 : Note := ⟨"F3", 53, -5⟩
def G3 : Note := ⟨"G3", 55, -4⟩
def A3 : Note := ⟨"A3", 57, -3⟩
def B3 : Note := ⟨"B3", 59, -2⟩
def C4 : Note := ⟨"C4", 60, -1⟩
def D4 : Note := ⟨"D4", 62, 0⟩
def E4 : Note := ⟨"E4", 64, 1⟩
def F4 : Note := ⟨"F4", 65, 2⟩
def G4 : Note := ⟨"G4", 67, 3⟩
def A4 : Note := ⟨"A4", 69, 4⟩
def B4 : Note := ⟨"B4", 71, 5⟩
def C5 : Note := ⟨"C5", 72, 2⟩
def D5 : Note := ⟨"D5", 74, 3⟩
def E5 : Note := ⟨"E5", 76, 4⟩
def F5 : Note := ⟨"F5", 77, 5⟩
def G5 : Note := ⟨"G5", 79, 6⟩
def A5 : Note := ⟨"A5", 81, 7⟩
def B5 : Note := ⟨"B5", 83, 8⟩
def C6 : Note := ⟨"C6", 84, 9⟩

/-- Go slice `AllNotes`, in source order. -/
def AllNotes : List Note :=
  [C3, D3, E3, F3, G3, A3, B3,
   C4, D4, E4, F4, G4, A4, B4,
   C5, D5, E5, F5, G5, A5, B5, C6]

/-- Go `GetNoteByMIDI`: the first catalog entry whose `MIDINote` matches, and
otherwise a nameless note whose position is `(int(midiNote) - 60) / 2` with
the truncating division of Go. -/
def GetNoteByMIDI (midiNote : Nat) : Note :=
  match AllNotes.find? (fun note => note.MIDINote == midiNote) with
  | some note => note
  | none =>
    { Name := ""
      MIDINote := midiNote
      Position := Int.tdiv ((midiNote : Int) - 60) 2 }

/-- Go `notes.GetStaffPosition`. -/
def GetStaffPosition (midiNote : Nat) : Int :=
  (GetNoteByMIDI midiNote).Position

end notes

/-! ## Package `main` -/

namespace main

/-- Go conversion `uint8(x)` of an `int`: the low eight bits. -/
def uint8 (x : Int) : Nat := (x % 256).toNat

/-- Go struct `main.Note` with fields `midiNote uint8`, `velocity uint8`. -/
structure Note where
  midiNote : Nat
  velocity : Nat
  deriving DecidableEq

/-- The fields of Go `Game` that the note handling and `drawStaff` use. -/
structure Game where
  currentNotes : List String
  started : Bool
  currentNote : Option Note
  deriving DecidableEq

/-- The `Game` value built in `main()`: `currentNotes: make([]string, 0)`, the
other fields at their zero values. -/
def initialGame : Game :=
  { currentNotes := [], started := false, currentNote := none }

/-- Go `getStaffPosition` (lower case), the one `drawStaff` calls. -/
def getStaffPosition (midiNote : Nat) : Int :=
  notes.GetStaffPosition midiNote

/-- Go `main.GetStaffPosition` (upper case): `int(midiNote) - 60`; no caller. -/
def GetStaffPosition (midiNote : Nat) : Int :=
  (midiNote : Int) - 60

/-- The slice `noteNames` of `getNoteString`: the twelve pitch-class names,
indices 0..5 and 6..11. -/
def noteNames : List String :=
  ["C", "C#", "D", "D#", "E", "F"] ++ ["F#", "G", "G#", "A", "A#", "B"]

/-- Go `getNoteString`: `noteNames[note%12]` followed by the decimal rendering
of `int(note/12) - 1`. -/
def getNoteString (note : Nat) : String :=
  let noteName := noteNames.get ⟨note % 12, Nat.mod_lt note (by decide)⟩
  let octave : Int := ((note / 12 : Nat) : Int) - 1
  noteName ++ toString octave

/-- A device message as the callback of `startMIDIListening` sees it.
`NoteOn scan`: the text starts with `NoteOn`; `scan` is what
`Sscanf(msgStr, "NoteOn channel: %d key: %d velocity: %d", ...)` stored
(channel, key, velocity), or `none` when it returned an error.
`NoteOff scan`: the text starts with `NoteOff`; `scan` is the result of
`Sscanf(msgStr, "NoteOff channel: %d key: %d", ...)` (channel, key).
`Other`: any other text. -/
inductive Message where
  | NoteOn (scan : Option (Int × Int × Int))
  | NoteOff (scan : Option (Int × Int))
  | Other
  deriving DecidableEq

/-- The callback passed to `midi.ListenTo` in `startMIDIListening`, as a step
on the game state (one lock hold per message). -/
def onMessage (g : Game) : Message → Game
  | .NoteOn scan =>
    match scan with
    | some (_, key, velocity) =>
      if velocity > 0 then
        let noteStr := getNoteString (uint8 key)
        let appended := noteStr :: g.currentNotes
        let trimmed := if appended.length > 5 then appended.take 5 else appended
        { g with
          currentNotes := trimmed
          currentNote := some { midiNote := uint8 key, velocity := uint8 velocity } }
      else g
    | none => g
  | .NoteOff scan =>
    match g.currentNote with
    | some cur =>
      match scan with
      | some (_, key) =>
        if uint8 key = cur.midiNote then { g with currentNote := none } else g
      | none => g
    | none => g
  | .Other => g

/-- The state after the callback has handled the messages `ms` in order. -/
def run (g : Game) (ms : List Message) : Game :=
  ms.foldl onMessage g

/-! ### Staff drawing -/

def staffY : Int := 200
def lineSpacing : Int := 10

/-- The line `noteY := staffY + 4*lineSpacing - (pos+6)*(lineSpacing/2)`. -/
def noteY (pos : Int) : Int :=
  staffY + 4 * lineSpacing - (pos + 6) * Int.tdiv lineSpacing 2

/-- The loop `for y := start; y <= limit; y += lineSpacing` of the below-staff
branch, whose body draws one line at `y`: the `y` of every line drawn. -/
def ledgerBelowLoop (y limit : Int) : List Int :=
  if y ≤ limit then y :: ledgerBelowLoop (y + lineSpacing) limit else []
termination_by (limit + 1 - y).toNat
decreasing_by
  simp only [lineSpacing]
  omega

/-- The loop `for y := start; y >= limit; y -= lineSpacing` of the above-staff
branch, whose body draws one line at `y`: the `y` of every line drawn. -/
def ledgerAboveLoop (y limit : Int) : List Int :=
  if y ≥ limit then y :: ledgerAboveLoop (y - lineSpacing) limit else []
termination_by (y + 1 - limit).toNat
decreasing_by
  simp only [lineSpacing]
  omega

/-- The block "Draw ledger lines if needed" of `drawStaff`: the `y` of every
ledger line drawn for a note at staff position `pos`. -/
def ledgerLines (pos : Int) : List Int :=
  if pos ≤ -5 then
    ledgerBelowLoop (staffY + 4 * lineSpacing + lineSpacing)
      (noteY pos + Int.tdiv lineSpacing 2)
  else if pos ≥ 5 then
    ledgerAboveLoop staffY (noteY pos - Int.tdiv lineSpacing 2)
  else []

/-- What `drawStaff` puts on the screen: the `y` of the staff lines, the `y` of
the centre of the note head when there is one, and the `y` of the ledger
lines. -/
structure StaffDrawing where
  staffLines : List Int
  noteHead : Option Int
  ledger : List Int
  deriving DecidableEq

/-- Go `(*Game).drawStaff`; `none` is the early return. -/
def drawStaff (g : Game) : Option StaffDrawing :=
  if !g.started || g.currentNotes.length == 0 then none
  else
    some
      { staffLines := (List.range 5).map (fun i => staffY + (i : Int) * lineSpacing)
        noteHead := g.currentNote.map (fun n => noteY (getStaffPosition n.midiNote))
        ledger :=
          match g.currentNote with
          | some n => ledgerLines (getStaffPosition n.midiNote)
          | none => [] }


/-! ### Event sequences -/

/-- A well-formed device event: a note-on with its channel, key and velocity,
or a note-off with its channel and key. -/
inductive Event where
  | noteOn (channel : Int) (key velocity : Nat)
  | noteOff (channel : Int) (key : Nat)
  deriving DecidableEq

/-- The message the callback receives for an event (its text scans without
error). -/
def Event.toMessage : Event → Message
  | .noteOn channel key velocity => .NoteOn (some (channel, (key : Int), (velocity : Int)))
  | .noteOff channel key => .NoteOff (some (channel, (key : Int)))

/-- Key in 0..127; for a note-on, velocity in 1..127. -/
def Event.wellFormed : Event → Prop
  | .noteOn _ key velocity => key ≤ 127 ∧ 0 < velocity ∧ velocity ≤ 127
  | .noteOff _ key => key ≤ 127

instance (e : Event) : Decidable e.wellFormed := by
  cases e <;> unfold Event.wellFormed <;> infer_instance

/-- The keys of the note-on events of a sequence, oldest first. -/
def onKeys : List Event → List Nat
  | [] => []
  | .noteOn _ key _ :: es => key :: onKeys es
  | .noteOff _ _ :: es => onKeys es

end main

/-! ## Note table -/

/-- A number that no catalog entry carries is not found by the search of
`GetNoteByMIDI`. -/
theorem find_eq_none_of_absent (n : Nat)
    (h : ∀ e ∈ notes.AllNotes, e.MIDINote ≠ n) :
    notes.AllNotes.find? (fun note => note.MIDINote == n) = none := by
  rw [List.find?_eq_none]
  intro e he
  simpa using h e he

/-- Truncating division by two of `n - 60`, in terms of division of naturals. -/
theorem tdiv_sub_sixty (n : Nat) :
    Int.tdiv ((n : Int) - 60) 2
      = if 60 ≤ n then (((n - 60) / 2 : Nat) : Int) else -(((60 - n) / 2 : Nat) : Int) := by
  split
  · rename_i h
    have e : ((n : Int) - 60) = ((n - 60 : Nat) : Int) := by omega
    rw [e]
    rfl
  · rename_i h
    have e : ((n : Int) - 60) = -((60 - n : Nat) : Int) := by omega
    rw [e, Int.neg_tdiv]
    rfl

/-- C1: every catalog entry is returned unchanged by `GetNoteByMIDI` at its own
MIDI number, and `GetStaffPosition` gives its recorded position; MIDI 60 is
`C4` at position -1 and MIDI 69 is `A4` at position 4. -/
theorem GetNoteByMIDI_catalog (e : notes.Note) (h : e ∈ notes.AllNotes) :
    notes.GetNoteByMIDI e.MIDINote = e
      ∧ notes.GetStaffPosition e.MIDINote = e.Position
      ∧ notes.GetNoteByMIDI 60 = { Name := "C4", MIDINote := 60, Position := -1 }
      ∧ notes.GetNoteByMIDI 69 = { Name := "A4", MIDINote := 69, Position := 4 } := by
  have key : ∀ e ∈ notes.AllNotes, notes.GetNoteByMIDI e.MIDINote = e := by decide
  refine ⟨key e h, ?_, by decide, by decide⟩
  unfold notes.GetStaffPosition
  rw [key e h]

theorem GetNoteByMIDI_catalog_witness :
    notes.A4 ∈ notes.AllNotes
      ∧ notes.GetNoteByMIDI notes.A4.MIDINote = notes.A4
      ∧ notes.GetStaffPosition notes.A4.MIDINote = notes.A4.Position :=
  ⟨by decide,
   (GetNoteByMIDI_catalog notes.A4 (by decide)).1,
   (GetNoteByMIDI_catalog notes.A4 (by decide)).2.1⟩

/-- C2, as stated, fails at MIDI 45: it is in no catalog entry, the code gives
position -7, and the floor of (45 - 60) / 2 is -8. -/
theorem fallback_position_not_floor :
    (45 : Nat) ≤ 127
      ∧ (∀ e ∈ notes.AllNotes, e.MIDINote ≠ 45)
      ∧ (notes.GetNoteByMIDI 45).Position = -7
      ∧ Int.fdiv ((45 : Int) - 60) 2 = -8
      ∧ (notes.GetNoteByMIDI 45).Position ≠ Int.fdiv ((45 : Int) - 60) 2 := by
  decide

/-- C2 (amended): for a MIDI number `n` (0..127 included) of no catalog entry, `GetNoteByMIDI n`
has the empty name, MIDI number `n`, and position `(n - 60) / 2` rounded toward
zero: `(n - 60) / 2` rounded down when `n ≥ 60`, and minus `(60 - n) / 2`
rounded down when `n < 60`. -/
theorem GetNoteByMIDI_fallback (n : Nat)
    (h : ∀ e ∈ notes.AllNotes, e.MIDINote ≠ n) :
    notes.GetNoteByMIDI n =
      { Name := ""
        MIDINote := n
        Position :=
          if 60 ≤ n then (((n - 60) / 2 : Nat) : Int) else -(((60 - n) / 2 : Nat) : Int) } := by
  unfold notes.GetNoteByMIDI
  rw [find_eq_none_of_absent n h, tdiv_sub_sixty]

theorem GetNoteByMIDI_fallback_witness :
    (45 : Nat) ≤ 127
      ∧ (∀ e ∈ notes.AllNotes, e.MIDINote ≠ 45)
      ∧ notes.GetNoteByMIDI 45 = { Name := "", MIDINote := 45, Position := -7 } :=
  ⟨by decide, by decide, GetNoteByMIDI_fallback 45 (by decide)⟩

/-- C10 fails at B4 and C5: MIDI 71 is below MIDI 72 in pitch, yet
`GetStaffPosition` gives 5 for the first and 2 for the second. -/
theorem GetStaffPosition_drops_at_C5 :
    (71 : Nat) ≤ 72
      ∧ notes.GetStaffPosition 71 = 5
      ∧ notes.GetStaffPosition 72 = 2
      ∧ ¬ (notes.GetStaffPosition 71 ≤ notes.GetStaffPosition 72) := by
  decide

/-! ## Note event state -/

theorem uint8_natCast (k : Nat) (h : k < 256) : main.uint8 (k : Int) = k := by
  unfold main.uint8
  omega

/-- The slice step `s = s[:5]` taken when `len(s) > 5` is `take 5`. -/
theorem trim_eq_take (l : List String) :
    (if l.length > 5 then l.take 5 else l) = l.take 5 := by
  split
  · rfl
  · rw [List.take_of_length_le (by omega)]

/-- The state after a note-on whose text scans and whose velocity is positive. -/
theorem onMessage_noteOn (g : main.Game) (ch key velocity : Int) (hv : 0 < velocity) :
    main.onMessage g (.NoteOn (some (ch, key, velocity)))
      = { currentNotes := (main.getNoteString (main.uint8 key) :: g.currentNotes).take 5
          started := g.started
          currentNote := some { midiNote := main.uint8 key, velocity := main.uint8 velocity } } := by
  simp only [main.onMessage, gt_iff_lt, hv, if_true]
  rw [trim_eq_take]

theorem onMessage_length_le (g : main.Game) (m : main.Message)
    (h : g.currentNotes.length ≤ 5) : (main.onMessage g m).currentNotes.length ≤ 5 := by
  cases m with
  | NoteOn scan =>
    cases scan with
    | none => simpa [main.onMessage] using h
    | some t =>
      obtain ⟨ch, key, velocity⟩ := t
      by_cases hv : 0 < velocity
      · rw [onMessage_noteOn g ch key velocity hv]
        simp only [List.length_take]
        omega
      · simpa [main.onMessage, hv] using h
  | NoteOff scan =>
    simp only [main.onMessage]
    split
    · split
      · split <;> simpa using h
      · exact h
    · exact h
  | Other => simpa [main.onMessage] using h

theorem run_length_le (ms : List main.Message) (g : main.Game)
    (h : g.currentNotes.length ≤ 5) : (main.run g ms).currentNotes.length ≤ 5 := by
  induction ms generalizing g with
  | nil => simpa [main.run] using h
  | cons m ms ih =>
    have := ih (main.onMessage g m) (onMessage_length_le g m h)
    simpa [main.run] using this

/-- A note-off never touches the history. -/
theorem onMessage_noteOff_currentNotes (g : main.Game) (scan : Option (Int × Int)) :
    (main.onMessage g (.NoteOff scan)).currentNotes = g.currentNotes := by
  simp only [main.onMessage]
  split
  · split
    · split <;> rfl
    · rfl
  · rfl

theorem take_append_take (a b : List String) (n m : Nat) (h : n ≤ m) :
    (a ++ b.take m).take n = (a ++ b).take n := by
  induction a generalizing n with
  | nil => simp [List.take_take, h]
  | cons x a ih =>
    cases n with
    | zero => simp
    | succ n => simp [ih n (by omega)]

/-- The history after a well-formed event sequence, from any state whose history
has at most five entries. -/
theorem run_events_currentNotes (es : List main.Event) (g : main.Game)
    (hwf : ∀ e ∈ es, e.wellFormed) (hlen : g.currentNotes.length ≤ 5) :
    (main.run g (es.map main.Event.toMessage)).currentNotes
      = (((main.onKeys es).reverse.map main.getNoteString) ++ g.currentNotes).take 5 := by
  induction es generalizing g with
  | nil =>
    simp [main.run, main.onKeys, List.take_of_length_le hlen]
  | cons e es ih =>
    have hes : ∀ e ∈ es, e.wellFormed := fun x hx => hwf x (List.mem_cons_of_mem _ hx)
    have he := hwf e (List.mem_cons_self _ _)
    have hstep := onMessage_length_le g e.toMessage hlen
    have h := ih (main.onMessage g e.toMessage) hes hstep
    simp only [main.run, List.map_cons, List.foldl_cons] at h ⊢
    rw [h]
    cases e with
    | noteOn ch k v =>
      simp only [main.Event.wellFormed] at he
      have hv : (0 : Int) < (v : Int) := by omega
      simp only [main.Event.toMessage, main.onKeys]
      rw [onMessage_noteOn g ch k v hv, uint8_natCast k (by omega)]
      simp only [List.reverse_cons, List.map_append, List.map_cons, List.map_nil,
        List.append_assoc, List.singleton_append]
      exact take_append_take _ _ 5 5 (le_refl 5)
    | noteOff ch k =>
      simp only [main.Event.toMessage, main.onKeys]
      rw [onMessage_noteOff_currentNotes]

/-- C3: a note-on with key `k` in 0..127 and velocity `v` in 1..127 leaves the
history equal to the first five entries of `getNoteString k :: h` and the active
note equal to `(k, v)`, whatever the state was; on the initial state, note-on
(60, 100) gives history `["C4"]` and active note `(60, 100)`. -/
theorem noteOn_effect (g : main.Game) (ch : Int) (k v : Nat)
    (hk : k ≤ 127) (hv0 : 0 < v) (hv : v ≤ 127) :
    (main.onMessage g (.NoteOn (some (ch, (k : Int), (v : Int))))).currentNotes
        = (main.getNoteString k :: g.currentNotes).take 5
      ∧ (main.onMessage g (.NoteOn (some (ch, (k : Int), (v : Int))))).currentNote
        = some { midiNote := k, velocity := v }
      ∧ (main.onMessage main.initialGame (.NoteOn (some (ch, 60, 100)))).currentNotes = ["C4"]
      ∧ (main.onMessage main.initialGame (.NoteOn (some (ch, 60, 100)))).currentNote
        = some { midiNote := 60, velocity := 100 } := by
  have hvi : (0 : Int) < (v : Int) := by omega
  rw [onMessage_noteOn g ch k v hvi, onMessage_noteOn _ ch 60 100 (by decide),
    uint8_natCast k (by omega), uint8_natCast v (by omega)]
  refine ⟨rfl, rfl, by decide, by decide⟩

theorem noteOn_effect_witness :
    ((62 : Nat) ≤ 127 ∧ 0 < 90 ∧ (90 : Nat) ≤ 127)
      ∧ (main.onMessage
          { currentNotes := ["C4", "B3", "A3", "G3", "F3"], started := true,
            currentNote := some { midiNote := 60, velocity := 100 } }
          (.NoteOn (some (0, 62, 90)))).currentNotes = ["D4", "C4", "B3", "A3", "G3"]
      ∧ (main.onMessage
          { currentNotes := ["C4", "B3", "A3", "G3", "F3"], started := true,
            currentNote := some { midiNote := 60, velocity := 100 } }
          (.NoteOn (some (0, 62, 90)))).currentNote = some { midiNote := 62, velocity := 90 } :=
  ⟨by decide,
   (noteOn_effect
      { currentNotes := ["C4", "B3", "A3", "G3", "F3"], started := true,
        currentNote := some { midiNote := 60, velocity := 100 } }
      0 62 90 (by decide) (by decide) (by decide)).1,
   (noteOn_effect
      { currentNotes := ["C4", "B3", "A3", "G3", "F3"], started := true,
        currentNote := some { midiNote := 60, velocity := 100 } }
      0 62 90 (by decide) (by decide) (by decide)).2.1⟩

/-- C4: from the empty history, after note-on events with positive velocity
and keys `k1..kn`, interleaved with any note-off events, the history is the
names of `kn, k(n-1), ...` cut to five entries and so has `min n 5` entries;
and the history has at most five entries after any message sequence at all. -/
theorem history_after_events (es : List main.Event) (hwf : ∀ e ∈ es, e.wellFormed) :
    (main.run main.initialGame (es.map main.Event.toMessage)).currentNotes
        = ((main.onKeys es).reverse.map main.getNoteString).take 5
      ∧ (main.run main.initialGame (es.map main.Event.toMessage)).currentNotes.length
        = min (main.onKeys es).length 5
      ∧ ∀ ms : List main.Message,
          (main.run main.initialGame ms).currentNotes.length ≤ 5 := by
  have h := run_events_currentNotes es main.initialGame hwf (by decide)
  have h0 : main.initialGame.currentNotes = [] := rfl
  rw [h0, List.append_nil] at h
  refine ⟨h, ?_, fun ms => run_length_le ms main.initialGame (by decide)⟩
  rw [h]
  simp [Nat.min_comm]

theorem history_after_events_witness :
    (∀ e ∈ [main.Event.noteOn 0 60 100, .noteOff 0 60, .noteOn 0 62 100, .noteOn 0 64 90,
          .noteOff 0 62, .noteOn 0 65 80, .noteOn 0 67 70, .noteOff 0 67, .noteOn 0 69 60],
        e.wellFormed)
      ∧ (main.run main.initialGame
          ([main.Event.noteOn 0 60 100, .noteOff 0 60, .noteOn 0 62 100, .noteOn 0 64 90,
            .noteOff 0 62, .noteOn 0 65 80, .noteOn 0 67 70, .noteOff 0 67,
            .noteOn 0 69 60].map main.Event.toMessage)).currentNotes
          = ["A4", "G4", "F4", "E4", "D4"] :=
  ⟨by decide,
   (history_after_events
      [main.Event.noteOn 0 60 100, .noteOff 0 60, .noteOn 0 62 100, .noteOn 0 64 90,
        .noteOff 0 62, .noteOn 0 65 80, .noteOn 0 67 70, .noteOff 0 67, .noteOn 0 69 60]
      (by decide)).1.trans (by decide)⟩

/-- C5: a note-off with key `k` in 0..127 clears the active note when one is
present with MIDI number `k`, leaves it as it is when none is present or it has
another MIDI number, and never changes the history. -/
theorem noteOff_effect (g : main.Game) (ch : Int) (k : Nat) (hk : k ≤ 127) :
    (main.onMessage g (.NoteOff (some (ch, (k : Int))))).currentNotes = g.currentNotes
      ∧ (∀ a, g.currentNote = some a → a.midiNote = k →
          (main.onMessage g (.NoteOff (some (ch, (k : Int))))).currentNote = none)
      ∧ ((∀ a, g.currentNote = some a → a.midiNote ≠ k) →
          (main.onMessage g (.NoteOff (some (ch, (k : Int))))).currentNote = g.currentNote) := by
  have hu := uint8_natCast k (by omega)
  refine ⟨onMessage_noteOff_currentNotes g _, ?_, ?_⟩
  · intro a ha hak
    simp [main.onMessage, ha, hu, hak]
  · intro hne
    cases hc : g.currentNote with
    | none => simp [main.onMessage, hc]
    | some a =>
      have := hne a hc
      have hne' : ¬ k = a.midiNote := fun e => this e.symm
      simp [main.onMessage, hc, hu, hne']

theorem noteOff_effect_witness :
    (60 : Nat) ≤ 127
      ∧ (main.onMessage
          { currentNotes := ["C4"], started := true,
            currentNote := some { midiNote := 60, velocity := 100 } }
          (.NoteOff (some (0, 60)))).currentNote = none
      ∧ (main.onMessage
          { currentNotes := ["C4"], started := true,
            currentNote := some { midiNote := 60, velocity := 100 } }
          (.NoteOff (some (0, 60)))).currentNotes = ["C4"] :=
  ⟨by decide,
   (noteOff_effect
      { currentNotes := ["C4"], started := true,
        currentNote := some { midiNote := 60, velocity := 100 } }
      0 60 (by decide)).2.1 { midiNote := 60, velocity := 100 } rfl rfl,
   (noteOff_effect
      { currentNotes := ["C4"], started := true,
        currentNote := some { midiNote := 60, velocity := 100 } }
      0 60 (by decide)).1⟩

/-- C6: a note-on with velocity 0 leaves the whole state, active note and
history included, as it was, for every key and every state. -/
theorem noteOn_zero_velocity (g : main.Game) (ch key : Int) :
    main.onMessage g (.NoteOn (some (ch, key, 0))) = g := by
  simp [main.onMessage]

/-- C7, as stated, fails at key 61: the note-on prepends `C#4`, the name
`getNoteString` builds, and the note table gives the empty name. -/
theorem prepended_name_not_from_table :
    (61 : Nat) ≤ 127
      ∧ (main.onMessage main.initialGame (.NoteOn (some (0, 61, 100)))).currentNotes = ["C#4"]
      ∧ (notes.GetNoteByMIDI 61).Name = ""
      ∧ (main.onMessage main.initialGame (.NoteOn (some (0, 61, 100)))).currentNotes.head?
          ≠ some (notes.GetNoteByMIDI 61).Name := by
  decide

/-- The two names agree exactly on the MIDI numbers of the catalog (checked on
0..127). -/
theorem getNoteString_eq_table_name_iff :
    ∀ k < 128, (main.getNoteString k = (notes.GetNoteByMIDI k).Name
      ↔ ∃ e ∈ notes.AllNotes, e.MIDINote = k) := by
  decide

/-- C7 (amended): for every key `k` in 0..127, the name a positive-velocity
note-on prepends to the history is `getNoteString k` (pitch class and octave);
it equals `GetNoteByMIDI(k).Name` exactly when `k` is the MIDI number of a
catalog entry. -/
theorem noteOn_name (g : main.Game) (ch : Int) (k v : Nat)
    (hk : k ≤ 127) (hv0 : 0 < v) (hv : v ≤ 127) :
    (main.onMessage g (.NoteOn (some (ch, (k : Int), (v : Int))))).currentNotes.head?
        = some (main.getNoteString k)
      ∧ (main.getNoteString k = (notes.GetNoteByMIDI k).Name
          ↔ ∃ e ∈ notes.AllNotes, e.MIDINote = k) := by
  have hvi : (0 : Int) < (v : Int) := by omega
  refine ⟨?_, getNoteString_eq_table_name_iff k (by omega)⟩
  rw [onMessage_noteOn g ch k v hvi, uint8_natCast k (by omega)]
  rfl

theorem noteOn_name_witness :
    ((60 : Nat) ≤ 127 ∧ 0 < 100 ∧ (100 : Nat) ≤ 127)
      ∧ (main.onMessage main.initialGame (.NoteOn (some (0, 60, 100)))).currentNotes.head?
          = some "C4"
      ∧ main.getNoteString 60 = (notes.GetNoteByMIDI 60).Name :=
  ⟨by decide,
   (noteOn_name main.initialGame 0 60 100 (by decide) (by decide) (by decide)).1.trans
     (by decide),
   (noteOn_name main.initialGame 0 60 100 (by decide) (by decide) (by decide)).2.mpr
     ⟨notes.C4, by decide, rfl⟩⟩

/-! ## Staff drawing -/

theorem half_lineSpacing : Int.tdiv 10 2 = 5 := by decide

/-- The note head is outside the five staff lines exactly for positions
`≤ -7` (below `y = 240`) and `≥ 3` (above `y = 200`). -/
theorem noteY_outside_iff (pos : Int) :
    (main.noteY pos < 200 ∨ main.noteY pos > 240) ↔ (pos ≤ -7 ∨ 3 ≤ pos) := by
  simp only [main.noteY, main.staffY, main.lineSpacing, half_lineSpacing]
  omega

/-- The ledger block draws at least one line exactly for positions `≤ -7` and
`≥ 5`. -/
theorem ledgerLines_ne_nil_iff (pos : Int) :
    main.ledgerLines pos ≠ [] ↔ (pos ≤ -7 ∨ 5 ≤ pos) := by
  unfold main.ledgerLines
  split
  · rw [main.ledgerBelowLoop]
    simp only [main.noteY, main.staffY, main.lineSpacing, half_lineSpacing]
    split
    · simp only [ne_eq, reduceCtorEq, not_false_eq_true, true_iff]
      omega
    · simp only [ne_eq, not_true_eq_false, false_iff]
      omega
  · split
    · rw [main.ledgerAboveLoop]
      simp only [main.noteY, main.staffY, main.lineSpacing, half_lineSpacing]
      split
      · simp only [ne_eq, reduceCtorEq, not_false_eq_true, true_iff]
        omega
      · simp only [ne_eq, not_true_eq_false, false_iff]
        omega
    · simp only [ne_eq, not_true_eq_false, false_iff]
      omega

/-- C8 fails at MIDI 69 (A4, position 4): `drawStaff` draws the staff lines at
200..240 and the note head at `y = 190`, above the top line, and no ledger
line. -/
theorem drawStaff_A4_no_ledger :
    main.getStaffPosition 69 = 4
      ∧ main.noteY (main.getStaffPosition 69) = 190
      ∧ main.ledgerLines (main.getStaffPosition 69) = []
      ∧ main.drawStaff
          { currentNotes := ["A4"], started := true,
            currentNote := some { midiNote := 69, velocity := 100 } }
        = some { staffLines := [200, 210, 220, 230, 240], noteHead := some 190, ledger := [] } := by
  decide
